import Mathlib

/-!
Verification of the `GcsResourceManager` resource ledger
(`src/ray/gcs/gcs_server/gcs_resource_manager.h`).

Only the class header (declarations and doc comments) is in the repository
snapshot; the method bodies are not.  Every behavioural definition below is
therefore modelled from the specification's description of the operation, and
is marked `Modelled from the spec:` with the operation it embeds.  The C++
`double` resource quantities are modelled as exact rationals, node ids as
naturals, and the protobuf maps as association lists / functions.
-/

namespace RayGcs

/-- Resource names (e.g. "CPU"): the string keys of the resource maps. -/
abbrev ResourceName := String

/-- Resource quantities.  The C++ code stores `double`; quantities are
modelled as exact rationals. -/
abbrev Quantity := ℚ

/-- A resource vector as it arrives in a request or report: a finite list of
(name, quantity) entries.  Per the spec, absence of a key means zero. -/
abbrev ResourceSet := List (ResourceName × Quantity)

namespace ResourceSet

/-- Quantity bound to `n`, defaulting to 0 for an absent name. -/
def get (rs : ResourceSet) (n : ResourceName) : Quantity :=
  match rs.find? (fun p => p.1 = n) with
  | some p => p.2
  | none => 0

/-- Whether the vector carries an entry for name `n`. -/
def hasName (rs : ResourceSet) (n : ResourceName) : Bool :=
  rs.any (fun p => decide (p.1 = n))

/-- The spec's ResourceVector invariant: every quantity is nonnegative. -/
def Nonneg (rs : ResourceSet) : Prop :=
  ∀ p ∈ rs, 0 ≤ p.2

instance (rs : ResourceSet) : Decidable rs.Nonneg := by
  unfold Nonneg; infer_instance

end ResourceSet

/-- Modelled from the spec: `NodeResourceLedger` — the per-node record pairing
total capacity with currently-available capacity (the C++ `SchedulingResources`
object held per node in `cluster_scheduling_resources_`).  The vectors are
modelled as total functions from names to quantities, absent names being 0. -/
structure NodeResourceLedger where
  total : ResourceName → Quantity
  available : ResourceName → Quantity

namespace NodeResourceLedger

/-- The spec's ledger invariant: `0 ≤ available[name] ≤ total[name]` for every
resource name. -/
def Inv (l : NodeResourceLedger) : Prop :=
  ∀ n : ResourceName, 0 ≤ l.available n ∧ l.available n ≤ l.total n

/-- Modelled from the spec: the sufficiency check of `AcquireResources` — for
every resource name in `required`, `available[name] ≥ required[name]`. -/
def canAcquire (l : NodeResourceLedger) (required : ResourceSet) : Bool :=
  required.all (fun p => decide (p.2 ≤ l.available p.1))

/-- Modelled from the spec: the subtraction step of `AcquireResources` —
subtract `required` from `available` pointwise on the names `required`
mentions; other names are untouched. -/
def subtract (l : NodeResourceLedger) (required : ResourceSet) :
    NodeResourceLedger :=
  { l with
    available := fun n =>
      if required.hasName n then l.available n - required.get n
      else l.available n }

/-- Modelled from the spec: the ledger-level step of `ReleaseResources` — add
`acquired` back into `available`, capped so it never exceeds `total`
(clamping, not erroring, on over-release). -/
def addCapped (l : NodeResourceLedger) (acquired : ResourceSet) :
    NodeResourceLedger :=
  { l with
    available := fun n =>
      if acquired.hasName n then min (l.total n) (l.available n + acquired.get n)
      else l.available n }

/-- Modelled from the spec: the ledger-level step of `UpdateResourceCapacity` —
for each name in `changed`, set `total[name] = changed[name]` and adjust
`available[name]` by the same delta, clamped to `[0, total[name]]`. -/
def updateCapacity (l : NodeResourceLedger) (changed : ResourceSet) :
    NodeResourceLedger where
  total := fun n => if changed.hasName n then changed.get n else l.total n
  available := fun n =>
    if changed.hasName n then
      max 0 (min (changed.get n) (l.available n + (changed.get n - l.total n)))
    else l.available n

/-- Modelled from the spec: the ledger-level step of `SetAvailableResources` —
replace `available` wholesale with the given vector. -/
def setAvailable (l : NodeResourceLedger) (resources : ResourceSet) :
    NodeResourceLedger :=
  { l with available := fun n => resources.get n }

end NodeResourceLedger

/-- Modelled from the spec: the fields of an `rpc::ResourcesData` heartbeat
report that the manager reads — the reporting node's id, the "lightweight"
payload (available resources and load), and the "normal task resources"
sub-field with its timestamp.  Field names follow the protobuf message. -/
structure ResourcesData where
  node_id : Nat
  resources_available : ResourceSet
  resource_load : ResourceSet
  resources_normal_task : ResourceSet
  resources_normal_task_timestamp : Int
deriving DecidableEq

/-- The state of a `GcsResourceManager`, as declared in the header:
`cluster_scheduling_resources_` (node id → ledger), `node_resource_usages_`
(latest heartbeat snapshot per node), `latest_resources_normal_task_timestamp_`,
the mutex-guarded `resources_buffer_` of pending broadcast deltas (kept in
insertion order, at most one entry per node), `max_broadcasting_batch_size_`,
and the `resource_buffer_mutex_` modelled as a held-flag. -/
structure GcsResourceManager where
  cluster_scheduling_resources : Nat → Option NodeResourceLedger
  node_resource_usages : Nat → Option ResourcesData
  latest_resources_normal_task_timestamp : Nat → Option Int
  resources_buffer : List (Nat × ResourcesData)
  max_broadcasting_batch_size : Nat
  resource_buffer_mutex : Bool

namespace GcsResourceManager

/-- Replace the ledger stored for `node_id` (helper for the mutators). -/
def setLedger (s : GcsResourceManager) (node_id : Nat)
    (l : NodeResourceLedger) : GcsResourceManager :=
  { s with
    cluster_scheduling_resources := fun m =>
      if m = node_id then some l else s.cluster_scheduling_resources m }

/-- Modelled from the spec: `AcquireResources(nodeId, required)` — for every
resource name in `required`, check `available[name] ≥ required[name]`; if all
checks pass, subtract `required` from `available` as a single logical step and
return true; otherwise return false with no mutation.  Unknown id: false. -/
def AcquireResources (s : GcsResourceManager) (node_id : Nat)
    (required_resources : ResourceSet) : Bool × GcsResourceManager :=
  match s.cluster_scheduling_resources node_id with
  | none => (false, s)
  | some l =>
    if l.canAcquire required_resources then
      (true, s.setLedger node_id (l.subtract required_resources))
    else
      (false, s)

/-- Modelled from the spec: `ReleaseResources(nodeId, acquired)` — add
`acquired` back into `available`, capped so it never exceeds `total`
(over-release is clamped, not an error, and the call still succeeds).
Unknown id: false. -/
def ReleaseResources (s : GcsResourceManager) (node_id : Nat)
    (acquired_resources : ResourceSet) : Bool × GcsResourceManager :=
  match s.cluster_scheduling_resources node_id with
  | none => (false, s)
  | some l => (true, s.setLedger node_id (l.addCapped acquired_resources))

/-- Modelled from the spec: `SetAvailableResources(nodeId, resources)` —
replace the node's `available` wholesale (full resynchronization).  Unknown
id: no-op. -/
def SetAvailableResources (s : GcsResourceManager) (node_id : Nat)
    (resources : ResourceSet) : GcsResourceManager :=
  match s.cluster_scheduling_resources node_id with
  | none => s
  | some l => s.setLedger node_id (l.setAvailable resources)

/-- Modelled from the spec: `UpdateResourceCapacity(nodeId, changed)` — for
each named resource set `total[name] = changed[name]` and adjust
`available[name]` by the same delta, clamped to `[0, total[name]]`.  Unknown
id: ignored (creates no entry). -/
def UpdateResourceCapacity (s : GcsResourceManager) (node_id : Nat)
    (changed_resources : ResourceSet) : GcsResourceManager :=
  match s.cluster_scheduling_resources node_id with
  | none => s
  | some l => s.setLedger node_id (l.updateCapacity changed_resources)

/-- Insert a pending broadcast delta for `node_id`, overwriting (in place) any
delta already buffered for that node — the `resources_buffer_` flat-hash-map
keeps at most one entry per node. -/
def bufferInsert (buf : List (Nat × ResourcesData)) (node_id : Nat)
    (d : ResourcesData) : List (Nat × ResourcesData) :=
  if buf.any (fun p => decide (p.1 = node_id)) then
    buf.map (fun p => if p.1 = node_id then (node_id, d) else p)
  else
    buf ++ [(node_id, d)]

/-- Modelled from the spec: whether an incoming normal-task-resource timestamp
is fresh enough to overwrite — it must be ≥ the stored timestamp for that node
(ties favor the incoming value); with no stored timestamp it is accepted. -/
def normalTaskFresh (s : GcsResourceManager) (node_id : Nat) (ts : Int) : Bool :=
  match s.latest_resources_normal_task_timestamp node_id with
  | none => true
  | some t => decide (t ≤ ts)

/-- Modelled from the spec: `UpdateNodeResourceUsage(nodeId, resources)` —
store `resources` as the node's latest heartbeat snapshot (full overwrite),
except that the normal-task-resources sub-field is overwritten only when the
incoming timestamp passes the staleness rule; always put the lightweight delta
into the broadcast buffer (overwriting any pending delta for that node). -/
def UpdateNodeResourceUsage (s : GcsResourceManager) (node_id : Nat)
    (resources : ResourcesData) : GcsResourceManager :=
  let fresh := s.normalTaskFresh node_id resources.resources_normal_task_timestamp
  let stored : ResourcesData :=
    if fresh then resources
    else
      match s.node_resource_usages node_id with
      | none => resources
      | some old =>
        { resources with
          resources_normal_task := old.resources_normal_task,
          resources_normal_task_timestamp := old.resources_normal_task_timestamp }
  { s with
    node_resource_usages := fun m =>
      if m = node_id then some stored else s.node_resource_usages m,
    latest_resources_normal_task_timestamp := fun m =>
      if m = node_id then
        (if fresh then some resources.resources_normal_task_timestamp
         else s.latest_resources_normal_task_timestamp m)
      else s.latest_resources_normal_task_timestamp m,
    resources_buffer := bufferInsert s.resources_buffer node_id resources }

/-- Modelled from the spec: `GetResourceUsageBatchForBroadcast_Locked(buffer)`
— the prelocked drain: move pending deltas into `buffer` until it holds
`max_broadcasting_batch_size_` entries, erasing the moved deltas and deferring
any excess to the next tick (the batch never exceeds the configured cap). -/
def GetResourceUsageBatchForBroadcast_Locked (s : GcsResourceManager)
    (buffer : List ResourcesData) :
    GcsResourceManager × List ResourcesData :=
  let k := s.max_broadcasting_batch_size - buffer.length
  ({ s with resources_buffer := s.resources_buffer.drop k },
   buffer ++ (s.resources_buffer.take k).map (fun p => p.2))

/-- Modelled from the spec: `GetResourceUsageBatchForBroadcast(buffer)` — the
public drain: acquire `resource_buffer_mutex_`, run the prelocked drain, and
release the mutex (the header describes the private method as the prelocked
version of this one). -/
def GetResourceUsageBatchForBroadcast (s : GcsResourceManager)
    (buffer : List ResourcesData) :
    GcsResourceManager × List ResourcesData :=
  let locked := { s with resource_buffer_mutex := true }
  let r := GetResourceUsageBatchForBroadcast_Locked locked buffer
  ({ r.1 with resource_buffer_mutex := false }, r.2)

/-- The cluster-wide ledger invariant: every stored ledger satisfies the
per-ledger bound `0 ≤ available ≤ total`. -/
def ClusterInv (s : GcsResourceManager) : Prop :=
  ∀ n l, s.cluster_scheduling_resources n = some l → l.Inv

end GcsResourceManager

/-- The four ledger mutations of the invariant claim, as one step type. -/
inductive Op where
  | acquireRes (node : Nat) (required : ResourceSet)
  | releaseRes (node : Nat) (acquired : ResourceSet)
  | setAvail (node : Nat) (resources : ResourceSet)
  | updateCap (node : Nat) (changed : ResourceSet)
deriving DecidableEq

namespace Op

/-- Apply one mutation to the manager state. -/
def apply (s : GcsResourceManager) : Op → GcsResourceManager
  | acquireRes node required => (s.AcquireResources node required).2
  | releaseRes node acquired => (s.ReleaseResources node acquired).2
  | setAvail node resources => s.SetAvailableResources node resources
  | updateCap node changed => s.UpdateResourceCapacity node changed

/-- Well-formed inputs for one mutation: resource vectors are nonnegative (the
spec's ResourceVector invariant), and a wholesale `SetAvailableResources` is
pointwise bounded by the target node's current total. -/
def WF (s : GcsResourceManager) : Op → Prop
  | acquireRes _ required => required.Nonneg
  | releaseRes _ acquired => acquired.Nonneg
  | setAvail node resources => resources.Nonneg ∧
      ∀ l, s.cluster_scheduling_resources node = some l →
        ∀ n, resources.get n ≤ l.total n
  | updateCap _ changed => changed.Nonneg

/-- Apply a sequence of mutations, left to right. -/
def run (s : GcsResourceManager) : List Op → GcsResourceManager
  | [] => s
  | op :: rest => run (op.apply s) rest

/-- Every mutation of the sequence is well-formed in the state it runs in. -/
def RunWF (s : GcsResourceManager) : List Op → Prop
  | [] => True
  | op :: rest => op.WF s ∧ RunWF (op.apply s) rest

end Op

/-- Modelled from the spec and the header's return type: the C++ manager keeps
`shared_ptr<SchedulingResources>` values, and `GetClusterResources` returns the
internal map by const reference (header lines 85-86, 207-209).  To capture the
pointer indirection, ledgers live in an explicit heap of addresses and the map
stores addresses. -/
structure RefState where
  heap : Nat → NodeResourceLedger
  node_refs : Nat → Option Nat

namespace RefState

/-- Modelled from the spec: `GetClusterResources()` — the returned const
reference to the node → shared-pointer map, i.e. the map of heap addresses
(not a copy of the pointed-to ledgers). -/
def GetClusterResources (m : RefState) : Nat → Option Nat :=
  m.node_refs

/-- What a caller holding a previously returned view reads for `node`:
dereference the stored address against the current heap. -/
def deref (m : RefState) (view : Nat → Option Nat) (node : Nat) :
    Option NodeResourceLedger :=
  (view node).map m.heap

/-- Modelled from the spec: `SetAvailableResources` on the pointer-level
state — the `SchedulingResources` object behind the node's shared pointer is
mutated in place; the map of pointers itself is untouched. -/
def SetAvailableResources (m : RefState) (node_id : Nat)
    (resources : ResourceSet) : RefState :=
  match m.node_refs node_id with
  | none => m
  | some a =>
    { m with
      heap := fun b =>
        if b = a then (m.heap a).setAvailable resources else m.heap b }

end RefState

/-- Test fixture: a ledger with total = available = {CPU: 4}. -/
def exLedger : NodeResourceLedger where
  total := fun n => if n = "CPU" then 4 else 0
  available := fun n => if n = "CPU" then 4 else 0

/-- Test fixture: a manager with one node (id 0) holding `exLedger`. -/
def exState : GcsResourceManager where
  cluster_scheduling_resources := fun m => if m = 0 then some exLedger else none
  node_resource_usages := fun _ => none
  latest_resources_normal_task_timestamp := fun _ => none
  resources_buffer := []
  max_broadcasting_batch_size := 100
  resource_buffer_mutex := false

/-- Test fixture: heartbeat report from node 1 (timestamp 10). -/
def exData1 : ResourcesData :=
  ⟨1, [("CPU", 1)], [], [("CPU", 1)], 10⟩

/-- Test fixture: heartbeat report from node 2 (timestamp 20). -/
def exData2 : ResourcesData :=
  ⟨2, [("CPU", 2)], [], [("CPU", 2)], 20⟩

/-- Test fixture: a second heartbeat report from node 1 (timestamp 30). -/
def exData3 : ResourcesData :=
  ⟨1, [("CPU", 3)], [], [("CPU", 3)], 30⟩

/-- Test fixture: a manager whose broadcast buffer holds two pending deltas
while the configured maximum batch size is 1. -/
def exSmallCapState : GcsResourceManager where
  cluster_scheduling_resources := fun _ => none
  node_resource_usages := fun _ => none
  latest_resources_normal_task_timestamp := fun _ => none
  resources_buffer := [(1, exData1), (2, exData2)]
  max_broadcasting_batch_size := 1
  resource_buffer_mutex := false

/-- Test fixture: a manager with one pending delta, well under the cap. -/
def exBufState : GcsResourceManager where
  cluster_scheduling_resources := fun _ => none
  node_resource_usages := fun _ => none
  latest_resources_normal_task_timestamp := fun _ => none
  resources_buffer := [(1, exData1)]
  max_broadcasting_batch_size := 100
  resource_buffer_mutex := false

/-- Test fixture: an initial heartbeat snapshot for node 5, timestamp 10. -/
def exReport0 : ResourcesData :=
  ⟨5, [("CPU", 1)], [("GPU", 1)], [("CPU", 5)], 10⟩

/-- Test fixture: a later report for node 5 with timestamp 20 (the stale one
of the out-of-order pair). -/
def exReport1 : ResourcesData :=
  ⟨5, [("CPU", 7)], [("GPU", 7)], [("CPU", 8)], 20⟩

/-- Test fixture: a report for node 5 with timestamp 30 (the fresh one of the
out-of-order pair). -/
def exReport2 : ResourcesData :=
  ⟨5, [("CPU", 9)], [("GPU", 9)], [("CPU", 2)], 30⟩

/-- Test fixture: a manager that already stores a heartbeat snapshot and a
normal-task timestamp (10) for node 5. -/
def exHbState : GcsResourceManager where
  cluster_scheduling_resources := fun _ => none
  node_resource_usages := fun m => if m = 5 then some exReport0 else none
  latest_resources_normal_task_timestamp := fun m => if m = 5 then some 10 else none
  resources_buffer := []
  max_broadcasting_batch_size := 100
  resource_buffer_mutex := false

/-- Test fixture: a pointer-level state with node 0's ledger at address 0. -/
def exRefState : RefState where
  heap := fun a => if a = 0 then exLedger else ⟨fun _ => 0, fun _ => 0⟩
  node_refs := fun m => if m = 0 then some 0 else none

namespace ResourceSet

theorem get_of_find?_eq_some {rs : ResourceSet} {n : ResourceName}
    {p : ResourceName × Quantity} (h : rs.find? (fun q => q.1 = n) = some p) :
    rs.get n = p.2 := by
  unfold get; rw [h]

theorem hasName_iff_find?_isSome {rs : ResourceSet} {n : ResourceName} :
    rs.hasName n = true ↔ (rs.find? (fun p => p.1 = n)).isSome := by
  unfold hasName
  rw [List.any_eq_true, List.find?_isSome]

/-- If the vector has an entry for `n`, its `get` value is one of the stored
entries (the first matching one). -/
theorem exists_mem_of_hasName {rs : ResourceSet} {n : ResourceName}
    (h : rs.hasName n = true) :
    ∃ p ∈ rs, p.1 = n ∧ rs.get n = p.2 := by
  rcases Option.isSome_iff_exists.mp (hasName_iff_find?_isSome.mp h) with ⟨p, hp⟩
  refine ⟨p, List.mem_of_find?_eq_some hp, ?_, get_of_find?_eq_some hp⟩
  have := List.find?_some hp
  exact of_decide_eq_true this

theorem get_nonneg {rs : ResourceSet} (h : rs.Nonneg) (n : ResourceName) :
    0 ≤ rs.get n := by
  unfold get
  cases hf : rs.find? (fun p => p.1 = n) with
  | none => exact le_refl 0
  | some p => exact h p (List.mem_of_find?_eq_some hf)

end ResourceSet

namespace NodeResourceLedger

/-- The Boolean sufficiency check agrees with the spec's wording: every entry
of `required` is covered by the node's available resources. -/
theorem canAcquire_iff {l : NodeResourceLedger} {req : ResourceSet} :
    l.canAcquire req = true ↔ ∀ p ∈ req, p.2 ≤ l.available p.1 := by
  unfold canAcquire
  rw [List.all_eq_true]
  constructor
  · intro h p hp
    exact of_decide_eq_true (h p hp)
  · intro h p hp
    exact decide_eq_true (h p hp)

/-- When the sufficiency check passes, every name carried by `required` has
`required[name] ≤ available[name]`. -/
theorem canAcquire_get_le {l : NodeResourceLedger} {req : ResourceSet}
    (h : l.canAcquire req = true) {n : ResourceName}
    (hn : req.hasName n = true) : req.get n ≤ l.available n := by
  rcases ResourceSet.exists_mem_of_hasName hn with ⟨p, hp, hpn, hget⟩
  have hall := canAcquire_iff.mp h p hp
  rw [hget, ← hpn]
  exact hall

/-- A successful acquire preserves the ledger invariant (for a nonnegative
request vector). -/
theorem subtract_Inv {l : NodeResourceLedger} {req : ResourceSet}
    (hinv : l.Inv) (hnn : req.Nonneg) (hca : l.canAcquire req = true) :
    (l.subtract req).Inv := by
  intro n
  rcases hinv n with ⟨h0, ht⟩
  unfold subtract
  dsimp only
  by_cases hn : req.hasName n = true
  · rw [if_pos hn]
    have hle := canAcquire_get_le hca hn
    have hget : 0 ≤ req.get n := ResourceSet.get_nonneg hnn n
    exact ⟨by linarith, by linarith⟩
  · rw [if_neg hn]; exact ⟨h0, ht⟩

/-- A capped release preserves the ledger invariant (for a nonnegative
release vector). -/
theorem addCapped_Inv {l : NodeResourceLedger} {acq : ResourceSet}
    (hinv : l.Inv) (hnn : acq.Nonneg) : (l.addCapped acq).Inv := by
  intro n
  rcases hinv n with ⟨h0, ht⟩
  unfold addCapped
  dsimp only
  by_cases hn : acq.hasName n = true
  · rw [if_pos hn]
    have hget : 0 ≤ acq.get n := ResourceSet.get_nonneg hnn n
    constructor
    · exact le_min (by linarith) (by linarith)
    · exact min_le_left _ _
  · rw [if_neg hn]; exact ⟨h0, ht⟩

/-- A capacity update preserves the ledger invariant (for a nonnegative
vector of new capacities). -/
theorem updateCapacity_Inv {l : NodeResourceLedger} {ch : ResourceSet}
    (hinv : l.Inv) (hnn : ch.Nonneg) : (l.updateCapacity ch).Inv := by
  intro n
  rcases hinv n with ⟨h0, ht⟩
  unfold updateCapacity
  dsimp only
  by_cases hn : ch.hasName n = true
  · rw [if_pos hn, if_pos hn]
    have hget : 0 ≤ ch.get n := ResourceSet.get_nonneg hnn n
    exact ⟨le_max_left _ _, max_le hget (min_le_left _ _)⟩
  · rw [if_neg hn, if_neg hn]; exact ⟨h0, ht⟩

/-- A wholesale replacement of `available` yields an invariant-satisfying
ledger exactly when the new vector is nonnegative and pointwise bounded by the
node's total. -/
theorem setAvailable_Inv {l : NodeResourceLedger} {res : ResourceSet}
    (hnn : res.Nonneg) (hb : ∀ n, res.get n ≤ l.total n) :
    (l.setAvailable res).Inv := by
  intro n
  exact ⟨ResourceSet.get_nonneg hnn n, hb n⟩

end NodeResourceLedger

namespace GcsResourceManager

theorem setLedger_ClusterInv {s : GcsResourceManager} {nid : Nat}
    {l : NodeResourceLedger} (hs : s.ClusterInv) (hl : l.Inv) :
    (s.setLedger nid l).ClusterInv := by
  intro m l' hm
  unfold setLedger at hm
  dsimp only at hm
  by_cases h : m = nid
  · rw [if_pos h] at hm
    cases hm; exact hl
  · rw [if_neg h] at hm
    exact hs m l' hm

theorem AcquireResources_ClusterInv {s : GcsResourceManager} {nid : Nat}
    {req : ResourceSet} (hs : s.ClusterInv) (hnn : req.Nonneg) :
    ((s.AcquireResources nid req).2).ClusterInv := by
  unfold AcquireResources
  cases hc : s.cluster_scheduling_resources nid with
  | none => exact hs
  | some l =>
    dsimp only
    by_cases hca : l.canAcquire req = true
    · rw [if_pos hca]
      exact setLedger_ClusterInv hs
        (NodeResourceLedger.subtract_Inv (hs nid l hc) hnn hca)
    · rw [if_neg hca]
      exact hs

theorem ReleaseResources_ClusterInv {s : GcsResourceManager} {nid : Nat}
    {acq : ResourceSet} (hs : s.ClusterInv) (hnn : acq.Nonneg) :
    ((s.ReleaseResources nid acq).2).ClusterInv := by
  unfold ReleaseResources
  cases hc : s.cluster_scheduling_resources nid with
  | none => exact hs
  | some l =>
    exact setLedger_ClusterInv hs
      (NodeResourceLedger.addCapped_Inv (hs nid l hc) hnn)

theorem UpdateResourceCapacity_ClusterInv {s : GcsResourceManager} {nid : Nat}
    {ch : ResourceSet} (hs : s.ClusterInv) (hnn : ch.Nonneg) :
    (s.UpdateResourceCapacity nid ch).ClusterInv := by
  unfold UpdateResourceCapacity
  cases hc : s.cluster_scheduling_resources nid with
  | none => exact hs
  | some l =>
    exact setLedger_ClusterInv hs
      (NodeResourceLedger.updateCapacity_Inv (hs nid l hc) hnn)

theorem SetAvailableResources_ClusterInv {s : GcsResourceManager} {nid : Nat}
    {res : ResourceSet} (hs : s.ClusterInv) (hnn : res.Nonneg)
    (hb : ∀ l, s.cluster_scheduling_resources nid = some l →
      ∀ n, res.get n ≤ l.total n) :
    (s.SetAvailableResources nid res).ClusterInv := by
  unfold SetAvailableResources
  cases hc : s.cluster_scheduling_resources nid with
  | none => exact hs
  | some l =>
    exact setLedger_ClusterInv hs
      (NodeResourceLedger.setAvailable_Inv hnn (hb l hc))

end GcsResourceManager

namespace Op

theorem apply_ClusterInv {s : GcsResourceManager} {op : Op}
    (hs : s.ClusterInv) (hwf : op.WF s) : (op.apply s).ClusterInv := by
  cases op with
  | acquireRes node required =>
    exact GcsResourceManager.AcquireResources_ClusterInv hs hwf
  | releaseRes node acquired =>
    exact GcsResourceManager.ReleaseResources_ClusterInv hs hwf
  | setAvail node resources =>
    exact GcsResourceManager.SetAvailableResources_ClusterInv hs hwf.1 hwf.2
  | updateCap node changed =>
    exact GcsResourceManager.UpdateResourceCapacity_ClusterInv hs hwf

theorem run_ClusterInv {ops : List Op} {s : GcsResourceManager}
    (hs : s.ClusterInv) (hwf : RunWF s ops) : (run s ops).ClusterInv := by
  induction ops generalizing s with
  | nil => exact hs
  | cons op rest ih =>
    exact ih (apply_ClusterInv hs hwf.1) hwf.2

end Op

namespace GcsResourceManager

/-- Effect of one heartbeat ingestion when the incoming normal-task timestamp
passes the staleness rule: the whole report is stored and the stored timestamp
becomes the incoming one. -/
theorem UpdateNodeResourceUsage_fresh {s : GcsResourceManager} {nid : Nat}
    {r : ResourcesData}
    (h : s.normalTaskFresh nid r.resources_normal_task_timestamp = true) :
    (s.UpdateNodeResourceUsage nid r).node_resource_usages nid = some r ∧
    (s.UpdateNodeResourceUsage nid r).latest_resources_normal_task_timestamp nid
      = some r.resources_normal_task_timestamp := by
  refine ⟨?_, ?_⟩ <;> simp [UpdateNodeResourceUsage, h]

/-- Effect of one heartbeat ingestion when the incoming normal-task timestamp
fails the staleness rule: the report is stored except that the
normal-task-resources sub-field (and its timestamp) are kept from the old
snapshot, and the stored timestamp is unchanged. -/
theorem UpdateNodeResourceUsage_stale {s : GcsResourceManager} {nid : Nat}
    {r old : ResourcesData}
    (h : s.normalTaskFresh nid r.resources_normal_task_timestamp = false)
    (hold : s.node_resource_usages nid = some old) :
    (s.UpdateNodeResourceUsage nid r).node_resource_usages nid =
      some { r with
        resources_normal_task := old.resources_normal_task,
        resources_normal_task_timestamp := old.resources_normal_task_timestamp } ∧
    (s.UpdateNodeResourceUsage nid r).latest_resources_normal_task_timestamp nid
      = s.latest_resources_normal_task_timestamp nid := by
  refine ⟨?_, ?_⟩ <;> simp [UpdateNodeResourceUsage, h, hold]

/-- A heartbeat ingestion updates the broadcast buffer through `bufferInsert`
(one overwriting entry per node). -/
theorem UpdateNodeResourceUsage_buffer (s : GcsResourceManager) (nid : Nat)
    (r : ResourcesData) :
    (s.UpdateNodeResourceUsage nid r).resources_buffer
      = bufferInsert s.resources_buffer nid r := rfl

/-- The batch produced by the public drain: the output buffer extended with
the pending deltas, up to the configured cap. -/
theorem GetResourceUsageBatchForBroadcast_batch (s : GcsResourceManager)
    (buffer : List ResourcesData) :
    (s.GetResourceUsageBatchForBroadcast buffer).2
      = buffer ++ (s.resources_buffer.take
          (s.max_broadcasting_batch_size - buffer.length)).map (fun p => p.2) :=
  rfl

/-- The pending deltas left behind by the public drain: everything beyond the
configured cap. -/
theorem GetResourceUsageBatchForBroadcast_buffer (s : GcsResourceManager)
    (buffer : List ResourcesData) :
    (s.GetResourceUsageBatchForBroadcast buffer).1.resources_buffer
      = s.resources_buffer.drop
          (s.max_broadcasting_batch_size - buffer.length) :=
  rfl

end GcsResourceManager

/-- The fixture ledger satisfies the per-ledger invariant. -/
theorem exLedger_Inv : exLedger.Inv := by
  intro n
  unfold exLedger
  dsimp only
  constructor <;> split <;> norm_num

/-- The fixture manager satisfies the cluster invariant. -/
theorem exState_ClusterInv : exState.ClusterInv := by
  intro n l h
  simp only [exState] at h
  by_cases hn : n = 0
  · rw [if_pos hn] at h
    cases h
    exact exLedger_Inv
  · rw [if_neg hn] at h
    cases h

/-- C1 counterexample: starting from an invariant-satisfying state with one
node of total `{CPU: 4}`, a successful `SetAvailableResources` with `{CPU: 5}`
(the node is known, the vector is a valid nonnegative resource vector) is
applied rather than rejected and leaves `available["CPU"] > total["CPU"]`,
so the claimed invariant does not survive arbitrary successful
`SetAvailableResources` mutations. -/
theorem C1_counterexample :
    (exState.cluster_scheduling_resources 0).isSome = true ∧
    (exState.SetAvailableResources 0 [("CPU", 5)]).cluster_scheduling_resources 0
      = some (exLedger.setAvailable [("CPU", 5)]) ∧
    (exLedger.setAvailable [("CPU", 5)]).total "CPU"
      < (exLedger.setAvailable [("CPU", 5)]).available "CPU" := by
  refine ⟨rfl, rfl, ?_⟩
  norm_num [NodeResourceLedger.setAvailable, exLedger, ResourceSet.get, List.find?]

/-- C1 (amended): after any sequence of successful `AcquireResources`,
`ReleaseResources`, `SetAvailableResources` and `UpdateResourceCapacity`
operations whose resource vectors are nonnegative (the spec's ResourceVector
invariant) and where every `SetAvailableResources` vector is pointwise bounded
by the target node's current total, every node's ledger satisfies
`0 ≤ available[name] ≤ total[name]`; a mutation that would violate the bound
(an insufficient acquire) is rejected rather than applied. -/
theorem C1_ledger_invariant (s : GcsResourceManager) (ops : List Op)
    (hs : s.ClusterInv) (hwf : Op.RunWF s ops) :
    ∀ n l, (Op.run s ops).cluster_scheduling_resources n = some l →
      ∀ name, 0 ≤ l.available name ∧ l.available name ≤ l.total name :=
  fun n l h name => Op.run_ClusterInv hs hwf n l h name

/-- Witness for C1: the invariant theorem applied to the concrete fixture and
a concrete acquire-then-release sequence. -/
theorem C1_ledger_invariant_witness :
    exState.ClusterInv ∧
    Op.RunWF exState [Op.acquireRes 0 [("CPU", 3)], Op.releaseRes 0 [("CPU", 3)]] ∧
    (∀ n l,
      (Op.run exState
          [Op.acquireRes 0 [("CPU", 3)], Op.releaseRes 0 [("CPU", 3)]]).cluster_scheduling_resources
          n = some l →
      ∀ name, 0 ≤ l.available name ∧ l.available name ≤ l.total name) := by
  have hnn : ResourceSet.Nonneg [("CPU", 3)] := by decide
  have hwf : Op.RunWF exState
      [Op.acquireRes 0 [("CPU", 3)], Op.releaseRes 0 [("CPU", 3)]] :=
    ⟨hnn, hnn, trivial⟩
  exact ⟨exState_ClusterInv, hwf, C1_ledger_invariant _ _ exState_ClusterInv hwf⟩

/-- C2: `AcquireResources` succeeds exactly when the node is known and every
required entry is sufficiently available; on failure the entire state is
unchanged (no partial mutation); on success `required` is subtracted from
`available` in one step, totals are untouched, and other nodes are
untouched. -/
theorem C2_AcquireResources_all_or_nothing (s : GcsResourceManager)
    (nid : Nat) (req : ResourceSet) :
    ((s.AcquireResources nid req).1 = true ↔
      ∃ l, s.cluster_scheduling_resources nid = some l ∧
        ∀ p ∈ req, p.2 ≤ l.available p.1) ∧
    ((s.AcquireResources nid req).1 = false → (s.AcquireResources nid req).2 = s) ∧
    (∀ l, s.cluster_scheduling_resources nid = some l →
      (∀ p ∈ req, p.2 ≤ l.available p.1) →
      (s.AcquireResources nid req).1 = true ∧
      ∃ l', (s.AcquireResources nid req).2.cluster_scheduling_resources nid = some l' ∧
        l'.total = l.total ∧
        (∀ n, req.hasName n = true → l'.available n = l.available n - req.get n) ∧
        (∀ n, req.hasName n = false → l'.available n = l.available n) ∧
        (∀ m, m ≠ nid →
          (s.AcquireResources nid req).2.cluster_scheduling_resources m =
            s.cluster_scheduling_resources m)) := by
  unfold GcsResourceManager.AcquireResources
  cases hc : s.cluster_scheduling_resources nid with
  | none =>
    refine ⟨?_, fun _ => rfl, fun l hl => nomatch hl⟩
    simp only [Bool.false_eq_true, false_iff]
    rintro ⟨l, hl, -⟩
    cases hl
  | some l0 =>
    dsimp only
    by_cases hca : l0.canAcquire req = true
    · rw [if_pos hca]
      refine ⟨?_, ?_, ?_⟩
      · simp only [true_iff]
        exact ⟨l0, rfl, NodeResourceLedger.canAcquire_iff.mp hca⟩
      · intro h; cases h
      · intro l hl hall
        cases hl
        refine ⟨rfl, l0.subtract req, ?_, rfl, ?_, ?_, ?_⟩
        · unfold GcsResourceManager.setLedger
          dsimp only
          rw [if_pos rfl]
        · intro n hn
          unfold NodeResourceLedger.subtract
          dsimp only
          rw [if_pos hn]
        · intro n hn
          unfold NodeResourceLedger.subtract
          dsimp only
          rw [hn]
          simp only [Bool.false_eq_true, if_false]
        · intro m hm
          unfold GcsResourceManager.setLedger
          dsimp only
          rw [if_neg hm]
    · rw [if_neg hca]
      refine ⟨?_, fun _ => rfl, ?_⟩
      · simp only [Bool.false_eq_true, false_iff]
        rintro ⟨l, hl, hall⟩
        cases hl
        exact hca (NodeResourceLedger.canAcquire_iff.mpr hall)
      · intro l hl hall
        cases hl
        exact absurd (NodeResourceLedger.canAcquire_iff.mpr hall) hca

/-- Witness for C2: the all-or-nothing theorem applied at a concrete state and
request, with the success branch instantiated. -/
theorem C2_AcquireResources_all_or_nothing_witness :
    exState.cluster_scheduling_resources 0 = some exLedger ∧
    (∀ p ∈ ([("CPU", 3)] : ResourceSet), p.2 ≤ exLedger.available p.1) ∧
    (exState.AcquireResources 0 [("CPU", 3)]).1 = true ∧
    ∃ l', (exState.AcquireResources 0 [("CPU", 3)]).2.cluster_scheduling_resources 0
        = some l' ∧
      l'.total = exLedger.total ∧
      (∀ n, ResourceSet.hasName [("CPU", 3)] n = true →
        l'.available n = exLedger.available n - ResourceSet.get [("CPU", 3)] n) ∧
      (∀ n, ResourceSet.hasName [("CPU", 3)] n = false →
        l'.available n = exLedger.available n) ∧
      (∀ m, m ≠ 0 →
        (exState.AcquireResources 0 [("CPU", 3)]).2.cluster_scheduling_resources m =
          exState.cluster_scheduling_resources m) := by
  have hlook : exState.cluster_scheduling_resources 0 = some exLedger := rfl
  have hall : ∀ p ∈ ([("CPU", 3)] : ResourceSet), p.2 ≤ exLedger.available p.1 := by
    intro p hp
    rcases List.mem_singleton.mp hp with rfl
    norm_num [exLedger]
  have h := (C2_AcquireResources_all_or_nothing exState 0 [("CPU", 3)]).2.2
      exLedger hlook hall
  exact ⟨hlook, hall, h.1, h.2⟩

/-- C3: the stored normal-task-resources sub-field of a node's latest
heartbeat snapshot is overwritten by an incoming report exactly when the
incoming timestamp is ≥ the stored timestamp (ties favor the incoming value),
while the rest of the snapshot is always overwritten; consequently applying
reports with timestamps T1 < T2 in the order T2 then T1 leaves the stored
normal-task value equal to T2's while the rest of the stale report is still
applied. -/
theorem C3_normal_task_staleness (s : GcsResourceManager) (nid : Nat)
    (r r1 r2 old : ResourcesData) (t : Int)
    (hold : s.node_resource_usages nid = some old)
    (ht : s.latest_resources_normal_task_timestamp nid = some t) :
    (∃ d, (s.UpdateNodeResourceUsage nid r).node_resource_usages nid = some d ∧
      d.resources_available = r.resources_available ∧
      d.resource_load = r.resource_load ∧
      (t ≤ r.resources_normal_task_timestamp →
        d.resources_normal_task = r.resources_normal_task) ∧
      (r.resources_normal_task_timestamp < t →
        d.resources_normal_task = old.resources_normal_task)) ∧
    (r1.resources_normal_task_timestamp < r2.resources_normal_task_timestamp →
     t ≤ r2.resources_normal_task_timestamp →
     ∃ d, ((s.UpdateNodeResourceUsage nid r2).UpdateNodeResourceUsage nid
          r1).node_resource_usages nid = some d ∧
       d.resources_normal_task = r2.resources_normal_task ∧
       d.resources_available = r1.resources_available ∧
       d.resource_load = r1.resource_load) := by
  constructor
  · unfold GcsResourceManager.UpdateNodeResourceUsage
      GcsResourceManager.normalTaskFresh
    rw [ht, hold]
    dsimp only
    rw [if_pos rfl]
    by_cases hts : t ≤ r.resources_normal_task_timestamp
    · rw [if_pos (decide_eq_true hts)]
      exact ⟨r, rfl, rfl, rfl, fun _ => rfl, fun hlt => absurd hts (not_le.mpr hlt)⟩
    · rw [if_neg (by simpa using hts)]
      refine ⟨_, rfl, rfl, rfl, fun hle => absurd hle hts, fun _ => rfl⟩
  · intro h12 hfresh
    have hf2 : s.normalTaskFresh nid r2.resources_normal_task_timestamp = true := by
      unfold GcsResourceManager.normalTaskFresh
      rw [ht]
      exact decide_eq_true hfresh
    have h2 := @GcsResourceManager.UpdateNodeResourceUsage_fresh s nid r2 hf2
    have hf1 : (s.UpdateNodeResourceUsage nid r2).normalTaskFresh nid
        r1.resources_normal_task_timestamp = false := by
      unfold GcsResourceManager.normalTaskFresh
      rw [h2.2]
      exact decide_eq_false (not_le.mpr h12)
    have h1 := @GcsResourceManager.UpdateNodeResourceUsage_stale
      (s.UpdateNodeResourceUsage nid r2) nid r1 r2 hf1 h2.1
    rw [h1.1]
    exact ⟨_, rfl, rfl, rfl, rfl⟩

/-- Witness for C3: the staleness theorem at the concrete fixture, applying
the reports with timestamps 30 then 20 on top of a stored timestamp of 10. -/
theorem C3_normal_task_staleness_witness :
    exHbState.node_resource_usages 5 = some exReport0 ∧
    exHbState.latest_resources_normal_task_timestamp 5 = some 10 ∧
    exReport1.resources_normal_task_timestamp <
      exReport2.resources_normal_task_timestamp ∧
    (10 : Int) ≤ exReport2.resources_normal_task_timestamp ∧
    ∃ d, ((exHbState.UpdateNodeResourceUsage 5 exReport2).UpdateNodeResourceUsage 5
        exReport1).node_resource_usages 5 = some d ∧
      d.resources_normal_task = exReport2.resources_normal_task ∧
      d.resources_available = exReport1.resources_available ∧
      d.resource_load = exReport1.resource_load := by
  have h12 : exReport1.resources_normal_task_timestamp <
      exReport2.resources_normal_task_timestamp := by decide
  have hfr : (10 : Int) ≤ exReport2.resources_normal_task_timestamp := by decide
  exact ⟨rfl, rfl, h12, hfr,
    (C3_normal_task_staleness exHbState 5 exReport0 exReport1 exReport2 exReport0 10
      rfl rfl).2 h12 hfr⟩

/-- C5: an `AcquireResources` with vector `v` that succeeds, immediately
followed by a `ReleaseResources` with the same `v`, also succeeds at the
release and restores the node's available resources (and total) to their
pre-acquire values, provided the node's ledger satisfies the spec invariant
`available ≤ total`. -/
theorem C5_acquire_release_roundtrip (s : GcsResourceManager) (nid : Nat)
    (v : ResourceSet) (l : NodeResourceLedger)
    (hl : s.cluster_scheduling_resources nid = some l)
    (hinv : l.Inv)
    (hacq : (s.AcquireResources nid v).1 = true) :
    (((s.AcquireResources nid v).2).ReleaseResources nid v).1 = true ∧
    ∃ l', (((s.AcquireResources nid v).2).ReleaseResources nid
        v).2.cluster_scheduling_resources nid = some l' ∧
      (∀ n, l'.available n = l.available n) ∧ l'.total = l.total := by
  have hca : l.canAcquire v = true := by
    by_contra hca
    unfold GcsResourceManager.AcquireResources at hacq
    rw [hl] at hacq
    dsimp only at hacq
    rw [if_neg hca] at hacq
    cases hacq
  have hstep : (s.AcquireResources nid v).2
      = s.setLedger nid (l.subtract v) := by
    unfold GcsResourceManager.AcquireResources
    rw [hl]
    dsimp only
    rw [if_pos hca]
  have hlook : (s.AcquireResources nid v).2.cluster_scheduling_resources nid
      = some (l.subtract v) := by
    rw [hstep]
    unfold GcsResourceManager.setLedger
    dsimp only
    rw [if_pos rfl]
  unfold GcsResourceManager.ReleaseResources
  rw [hlook]
  dsimp only
  refine ⟨rfl, (l.subtract v).addCapped v, ?_, ?_, rfl⟩
  · unfold GcsResourceManager.setLedger
    dsimp only
    rw [if_pos rfl]
  · intro n
    unfold NodeResourceLedger.addCapped NodeResourceLedger.subtract
    dsimp only
    by_cases hn : v.hasName n = true
    · rw [if_pos hn, if_pos hn]
      rw [sub_add_cancel]
      exact min_eq_right (hinv n).2
    · rw [if_neg hn, if_neg hn]

/-- Witness for C5: the roundtrip theorem at the concrete fixture, acquiring
and releasing `{CPU: 3}` on the node with total `{CPU: 4}`. -/
theorem C5_acquire_release_roundtrip_witness :
    exState.cluster_scheduling_resources 0 = some exLedger ∧
    exLedger.Inv ∧
    (exState.AcquireResources 0 [("CPU", 3)]).1 = true ∧
    (((exState.AcquireResources 0 [("CPU", 3)]).2).ReleaseResources 0
        [("CPU", 3)]).1 = true ∧
    ∃ l', (((exState.AcquireResources 0 [("CPU", 3)]).2).ReleaseResources 0
        [("CPU", 3)]).2.cluster_scheduling_resources 0 = some l' ∧
      (∀ n, l'.available n = exLedger.available n) ∧ l'.total = exLedger.total := by
  have hacq : (exState.AcquireResources 0 [("CPU", 3)]).1 = true := by
    norm_num [GcsResourceManager.AcquireResources, exState, exLedger,
      NodeResourceLedger.canAcquire, ResourceSet.get]
  have h := C5_acquire_release_roundtrip exState 0 [("CPU", 3)] exLedger rfl
    exLedger_Inv hacq
  exact ⟨rfl, exLedger_Inv, hacq, h.1, h.2⟩

/-- C6: `ReleaseResources` succeeds exactly when the node is known (unknown id
fails with no mutation, an over-release is not an error); it adds the acquired
vector back into `available` with each named resource capped at `total`, other
names and the totals untouched. -/
theorem C6_ReleaseResources_capped (s : GcsResourceManager) (nid : Nat)
    (acq : ResourceSet) :
    ((s.ReleaseResources nid acq).1 = true ↔
      (s.cluster_scheduling_resources nid).isSome = true) ∧
    (s.cluster_scheduling_resources nid = none → (s.ReleaseResources nid acq).2 = s) ∧
    (∀ l, s.cluster_scheduling_resources nid = some l →
      ∃ l', (s.ReleaseResources nid acq).2.cluster_scheduling_resources nid = some l' ∧
        l'.total = l.total ∧
        (∀ n, acq.hasName n = true →
          l'.available n = min (l.total n) (l.available n + acq.get n)) ∧
        (∀ n, acq.hasName n = false → l'.available n = l.available n) ∧
        (∀ n, l'.available n ≤ max (l.total n) (l.available n))) := by
  unfold GcsResourceManager.ReleaseResources
  cases hc : s.cluster_scheduling_resources nid with
  | none => exact ⟨by simp, fun _ => rfl, fun l hl => nomatch hl⟩
  | some l0 =>
    refine ⟨by simp, fun h => Option.noConfusion h, ?_⟩
    intro l hl
    cases hl
    refine ⟨l0.addCapped acq, ?_, rfl, ?_, ?_, ?_⟩
    · unfold GcsResourceManager.setLedger
      dsimp only
      rw [if_pos rfl]
    · intro n hn
      unfold NodeResourceLedger.addCapped
      dsimp only
      rw [if_pos hn]
    · intro n hn
      unfold NodeResourceLedger.addCapped
      dsimp only
      rw [hn]
      simp only [Bool.false_eq_true, if_false]
    · intro n
      unfold NodeResourceLedger.addCapped
      dsimp only
      by_cases hn : acq.hasName n = true
      · rw [if_pos hn]
        exact le_trans (min_le_left _ _) (le_max_left _ _)
      · rw [if_neg hn]
        exact le_max_right _ _

/-- Witness for C6: the release theorem at the concrete fixture with an
over-release of `{CPU: 9}` against available = total = `{CPU: 4}`, whose
result is clamped at the total. -/
theorem C6_ReleaseResources_capped_witness :
    exState.cluster_scheduling_resources 0 = some exLedger ∧
    ∃ l', (exState.ReleaseResources 0 [("CPU", 9)]).2.cluster_scheduling_resources 0
        = some l' ∧
      l'.total = exLedger.total ∧
      (∀ n, ResourceSet.hasName [("CPU", 9)] n = true →
        l'.available n = min (exLedger.total n)
          (exLedger.available n + ResourceSet.get [("CPU", 9)] n)) ∧
      (∀ n, ResourceSet.hasName [("CPU", 9)] n = false →
        l'.available n = exLedger.available n) ∧
      (∀ n, l'.available n ≤ max (exLedger.total n) (exLedger.available n)) :=
  ⟨rfl, (C6_ReleaseResources_capped exState 0 [("CPU", 9)]).2.2 exLedger rfl⟩

/-- C4 counterexample: with a configured maximum batch size of 1 and two
pending deltas, the first drain yields a non-empty batch but so does the
immediately following second one (the excess was deferred, the buffer was not
emptied), so "any buffer state with at least one pending delta" is too
strong. -/
theorem C4_counterexample :
    1 ≤ exSmallCapState.resources_buffer.length ∧
    (exSmallCapState.GetResourceUsageBatchForBroadcast []).2 ≠ [] ∧
    ((exSmallCapState.GetResourceUsageBatchForBroadcast
        []).1.GetResourceUsageBatchForBroadcast []).2 ≠ [] := by
  refine ⟨?_, ?_, ?_⟩ <;> decide

/-- C4 (amended): when the number of pending deltas is at most the configured
maximum batch size, `GetResourceUsageBatchForBroadcast` moves the entire
pending-delta buffer into its output and leaves the internal buffer empty, so
with at least one pending delta and no intervening ingestion the first call
yields a non-empty result and an immediately following second call yields an
empty result. -/
theorem C4_drain_moves_and_empties (s : GcsResourceManager)
    (hne : s.resources_buffer ≠ [])
    (hcap : s.resources_buffer.length ≤ s.max_broadcasting_batch_size) :
    (s.GetResourceUsageBatchForBroadcast []).2
        = s.resources_buffer.map (fun p => p.2) ∧
    (s.GetResourceUsageBatchForBroadcast []).2 ≠ [] ∧
    (s.GetResourceUsageBatchForBroadcast []).1.resources_buffer = [] ∧
    ((s.GetResourceUsageBatchForBroadcast
        []).1.GetResourceUsageBatchForBroadcast []).2 = [] := by
  have hbatch : (s.GetResourceUsageBatchForBroadcast []).2
      = s.resources_buffer.map (fun p => p.2) := by
    rw [GcsResourceManager.GetResourceUsageBatchForBroadcast_batch,
      List.length_nil, Nat.sub_zero, List.take_of_length_le hcap,
      List.nil_append]
  have hbuf : (s.GetResourceUsageBatchForBroadcast []).1.resources_buffer = [] := by
    rw [GcsResourceManager.GetResourceUsageBatchForBroadcast_buffer,
      List.length_nil, Nat.sub_zero]
    exact List.drop_of_length_le hcap
  refine ⟨hbatch, ?_, hbuf, ?_⟩
  · rw [hbatch]
    simp [hne]
  · rw [GcsResourceManager.GetResourceUsageBatchForBroadcast_batch, hbuf]
    simp

/-- Witness for C4: the amended drain theorem at a concrete one-delta buffer
well under the cap. -/
theorem C4_drain_moves_and_empties_witness :
    exBufState.resources_buffer ≠ [] ∧
    exBufState.resources_buffer.length ≤ exBufState.max_broadcasting_batch_size ∧
    (exBufState.GetResourceUsageBatchForBroadcast []).2
        = exBufState.resources_buffer.map (fun p => p.2) ∧
    (exBufState.GetResourceUsageBatchForBroadcast []).2 ≠ [] ∧
    (exBufState.GetResourceUsageBatchForBroadcast []).1.resources_buffer = [] ∧
    ((exBufState.GetResourceUsageBatchForBroadcast
        []).1.GetResourceUsageBatchForBroadcast []).2 = [] := by
  have hne : exBufState.resources_buffer ≠ [] := by decide
  have hcap : exBufState.resources_buffer.length
      ≤ exBufState.max_broadcasting_batch_size := by decide
  exact ⟨hne, hcap, C4_drain_moves_and_empties exBufState hne hcap⟩

/-- C7: starting from an empty broadcast buffer, heartbeats for two distinct
nodes followed by a second heartbeat for the first node leave exactly two
pending deltas — the repeat overwrites the first node's delta in place rather
than appending — and the next drained batch contains exactly those two
entries. -/
theorem C7_buffer_overwrites_per_node (s : GcsResourceManager) (n1 n2 : Nat)
    (r1 r2 r3 : ResourcesData)
    (hbuf : s.resources_buffer = [])
    (hne : n1 ≠ n2)
    (hcap : 2 ≤ s.max_broadcasting_batch_size) :
    (((s.UpdateNodeResourceUsage n1 r1).UpdateNodeResourceUsage
        n2 r2).UpdateNodeResourceUsage n1 r3).resources_buffer
      = [(n1, r3), (n2, r2)] ∧
    ((((s.UpdateNodeResourceUsage n1 r1).UpdateNodeResourceUsage
        n2 r2).UpdateNodeResourceUsage n1 r3).GetResourceUsageBatchForBroadcast
        []).2 = [r3, r2] := by
  have hb1 : (s.UpdateNodeResourceUsage n1 r1).resources_buffer = [(n1, r1)] := by
    rw [GcsResourceManager.UpdateNodeResourceUsage_buffer, hbuf]
    rfl
  have hb2 : ((s.UpdateNodeResourceUsage n1 r1).UpdateNodeResourceUsage
      n2 r2).resources_buffer = [(n1, r1), (n2, r2)] := by
    rw [GcsResourceManager.UpdateNodeResourceUsage_buffer, hb1]
    unfold GcsResourceManager.bufferInsert
    simp [hne]
  have hb3 : (((s.UpdateNodeResourceUsage n1 r1).UpdateNodeResourceUsage
      n2 r2).UpdateNodeResourceUsage n1 r3).resources_buffer
      = [(n1, r3), (n2, r2)] := by
    rw [GcsResourceManager.UpdateNodeResourceUsage_buffer, hb2]
    unfold GcsResourceManager.bufferInsert
    simp [Ne.symm hne]
  refine ⟨hb3, ?_⟩
  rw [GcsResourceManager.GetResourceUsageBatchForBroadcast_batch, hb3]
  have hmax : (((s.UpdateNodeResourceUsage n1 r1).UpdateNodeResourceUsage
      n2 r2).UpdateNodeResourceUsage n1 r3).max_broadcasting_batch_size
      = s.max_broadcasting_batch_size := rfl
  rw [hmax, List.length_nil, Nat.sub_zero,
    List.take_of_length_le (by simpa using hcap), List.nil_append]
  rfl

/-- Witness for C7: the overwrite scenario at the concrete fixture, with
nodes 1 and 2 and three concrete reports. -/
theorem C7_buffer_overwrites_per_node_witness :
    exState.resources_buffer = [] ∧
    (1 : Nat) ≠ 2 ∧
    2 ≤ exState.max_broadcasting_batch_size ∧
    (((exState.UpdateNodeResourceUsage 1 exData1).UpdateNodeResourceUsage
        2 exData2).UpdateNodeResourceUsage 1 exData3).resources_buffer
      = [(1, exData3), (2, exData2)] ∧
    ((((exState.UpdateNodeResourceUsage 1 exData1).UpdateNodeResourceUsage
        2 exData2).UpdateNodeResourceUsage 1 exData3).GetResourceUsageBatchForBroadcast
        []).2 = [exData3, exData2] := by
  have h := C7_buffer_overwrites_per_node exState 1 2 exData1 exData2 exData3
    rfl (by decide) (by decide)
  exact ⟨rfl, by decide, by decide, h.1, h.2⟩

/-- C8: a single drained batch never holds more deltas than the configured
maximum batch size; the batch is the longest prefix of the pending deltas
within the cap and the excess stays buffered for later ticks (nothing is
dropped: batch plus remaining buffer is exactly the original buffer). -/
theorem C8_batch_bounded_by_cap (s : GcsResourceManager) :
    ((s.GetResourceUsageBatchForBroadcast []).2).length
      ≤ s.max_broadcasting_batch_size ∧
    (s.GetResourceUsageBatchForBroadcast []).1.resources_buffer
      = s.resources_buffer.drop s.max_broadcasting_batch_size ∧
    (s.GetResourceUsageBatchForBroadcast []).2 ++
        ((s.GetResourceUsageBatchForBroadcast
          []).1.resources_buffer.map (fun p => p.2))
      = s.resources_buffer.map (fun p => p.2) := by
  refine ⟨?_, ?_, ?_⟩
  · rw [GcsResourceManager.GetResourceUsageBatchForBroadcast_batch]
    simp only [List.nil_append, List.length_nil, Nat.sub_zero,
      List.length_map]
    exact le_trans (List.length_take_le _ _) (le_refl _)
  · rw [GcsResourceManager.GetResourceUsageBatchForBroadcast_buffer,
      List.length_nil, Nat.sub_zero]
  · rw [GcsResourceManager.GetResourceUsageBatchForBroadcast_batch,
      GcsResourceManager.GetResourceUsageBatchForBroadcast_buffer]
    simp only [List.nil_append, List.length_nil, Nat.sub_zero]
    rw [← List.map_append, List.take_append_drop]

/-- C9 counterexample: a caller takes the `GetClusterResources` view, then
`SetAvailableResources` runs; reading node 0 through the previously returned
view now yields the mutated ledger (`available["CPU"]` changed from 4 to 1),
so the returned value is affected by mutations performed after the call — it
is not a point-in-time snapshot. -/
theorem C9_counterexample :
    exRefState.deref exRefState.GetClusterResources 0 = some exLedger ∧
    (exRefState.SetAvailableResources 0
        [("CPU", 1)]).deref exRefState.GetClusterResources 0
      = some (exLedger.setAvailable [("CPU", 1)]) ∧
    exLedger.available "CPU" = 4 ∧
    (exLedger.setAvailable [("CPU", 1)]).available "CPU" = 1 := by
  refine ⟨rfl, rfl, ?_, ?_⟩
  · norm_num [exLedger]
  · norm_num [NodeResourceLedger.setAvailable, ResourceSet.get, List.find?]

/-- C9 (amended): `GetClusterResources` returns the internal node → ledger
map by const reference to shared pointers: the map structure a caller holds is
unchanged by a later mutation (the caller cannot alter which nodes map to
which ledger objects through it), but the view aliases live state — reading
through the previously returned view after a mutation observes exactly the
current ledger values, not the values from the time of the call. -/
theorem C9_view_aliases_live_state (m : RefState) (node nid : Nat)
    (res : ResourceSet) :
    (m.SetAvailableResources nid res).GetClusterResources
      = m.GetClusterResources ∧
    (m.SetAvailableResources nid res).deref m.GetClusterResources node
      = (m.SetAvailableResources nid res).deref
          (m.SetAvailableResources nid res).GetClusterResources node := by
  have h : (m.SetAvailableResources nid res).node_refs = m.node_refs := by
    unfold RefState.SetAvailableResources
    cases m.node_refs nid <;> rfl
  refine ⟨h, ?_⟩
  unfold RefState.deref RefState.GetClusterResources
  rw [h]

/-- C10: for every state of the pending-delta buffer and every output buffer,
the public `GetResourceUsageBatchForBroadcast` (which takes and releases the
buffer mutex) and the private prelocked `GetResourceUsageBatchForBroadcast_Locked`
produce the same output batch and leave the pending-delta buffer, the ledgers
and the heartbeat snapshots in the same state; the public call leaves the
mutex released. -/
theorem C10_public_drain_equals_locked (s : GcsResourceManager)
    (buffer : List ResourcesData) :
    (s.GetResourceUsageBatchForBroadcast buffer).2
      = (s.GetResourceUsageBatchForBroadcast_Locked buffer).2 ∧
    (s.GetResourceUsageBatchForBroadcast buffer).1.resources_buffer
      = (s.GetResourceUsageBatchForBroadcast_Locked buffer).1.resources_buffer ∧
    (s.GetResourceUsageBatchForBroadcast buffer).1.cluster_scheduling_resources
      = s.cluster_scheduling_resources ∧
    (s.GetResourceUsageBatchForBroadcast buffer).1.node_resource_usages
      = s.node_resource_usages ∧
    (s.GetResourceUsageBatchForBroadcast buffer).1.resource_buffer_mutex = false :=
  ⟨rfl, rfl, rfl, rfl, rfl⟩

end RayGcs
